import Mathlib

/-!
Verification of the qml-hadron analysis scripts.

The repository drives an external event generator (Pythia) and contains four
near-duplicate scripts (`first_emitted.cc`, `hadronic50gev.cc`,
`jinghong-test.cc`, `main.cc`).  We embed the repository's own logic — the
particle-record data model it reads, the primary-hadron classifier, the
first-hadron resolver (production-time sort, simultaneity grouping with a
1e-10 tolerance), the per-event CSV export paths of each script, and the
outer event loop with its generation-failure skip policy — as executable Lean
definitions, and prove the specified properties about them.

Floating-point values of the source (momenta, energies, production times) are
modelled as exact rationals; machine integers as `Int`/`Nat`.  Library
accessors of the external generator (`isHadron()`, `pT()`, `name()`,
`vProd()`) are modelled as fields of the particle record, with `isFinal()`
expanded to its documented sign convention `status > 0`.
-/

namespace QmlHadron

/-- Production four-position `(x,y,z,t)` as returned by `vProd()`;
`Vec4::e()` is the time component `t`. -/
structure Vec4 where
  x : ℚ
  y : ℚ
  z : ℚ
  t : ℚ
deriving DecidableEq, Repr

/-- A particle record as read by the scripts from the event list: species id,
status code, four-momentum, mass, mother/daughter indices, the library's
hadron-species flag, the library's transverse-momentum accessor value, the
particle name, and the optional production four-position. -/
structure Particle where
  id : Int
  status : Int
  px : ℚ
  py : ℚ
  pz : ℚ
  e : ℚ
  m : ℚ
  pT : ℚ
  mother1 : Int
  mother2 : Int
  daughter1 : Int
  daughter2 : Int
  isHadronFlag : Bool
  name : String
  vProd : Option Vec4
deriving DecidableEq, Repr

instance : Inhabited Particle :=
  ⟨{ id := 0, status := 0, px := 0, py := 0, pz := 0, e := 0, m := 0, pT := 0,
     mother1 := 0, mother2 := 0, daughter1 := 0, daughter2 := 0,
     isHadronFlag := false, name := "", vProd := none }⟩

/-- The library's `isHadron()` accessor. -/
def Particle.isHadron (p : Particle) : Bool := p.isHadronFlag

/-- The library's `isFinal()` accessor, by its sign convention `status > 0`. -/
def Particle.isFinal (p : Particle) : Bool := decide (0 < p.status)

/-- `first_emitted.cc` line 89:
`(abs(status) >= 81 && abs(status) <= 89) && event[i].isHadron()`. -/
def isPrimaryHadron (p : Particle) : Bool :=
  (decide (81 ≤ p.status.natAbs) && decide (p.status.natAbs ≤ 89)) && p.isHadron

/-- Indexed scan of the event list starting at index `n`, keeping the
`(index, particle)` pairs whose particle satisfies `pred` — the shape of the
`for (int i = 0; i < event.size(); ++i)` collection loops. -/
def collectAux (pred : Particle → Bool) : ℕ → List Particle → List (ℕ × Particle)
  | _, [] => []
  | i, p :: rest =>
      if pred p then (i, p) :: collectAux pred (i + 1) rest
      else collectAux pred (i + 1) rest

/-- `first_emitted.cc` lines 86-92: the `primaryHadrons` collection (the code
stores `(index, status)`; we keep the particle itself, from which the status
is read back as `.status`). -/
def primaryHadrons (event : List Particle) : List (ℕ × Particle) :=
  collectAux isPrimaryHadron 0 event

/-- `first_emitted.cc` line 122: one entry of the
`std::vector<std::tuple<double,int,int>> hadronTimes` — `(production_time,
index, status)`. -/
structure HadronTime where
  time : ℚ
  idx : ℕ
  status : Int
deriving DecidableEq, Repr

instance : Inhabited HadronTime := ⟨{ time := 0, idx := 0, status := 0 }⟩

/-- `first_emitted.cc` lines 128-135: the production time of a candidate is
the `t` component of its production four-position when that is available, and
the candidate's list index otherwise (the `try`/`catch (...)` fallback). -/
def hadronTimeOf (ip : ℕ × Particle) : HadronTime :=
  { time :=
      match ip.2.vProd with
      | some vtx => vtx.t
      | none => (ip.1 : ℚ),
    idx := ip.1,
    status := ip.2.status }

/-- `first_emitted.cc` lines 124-138: the `hadronTimes` vector, one entry per
primary-hadron candidate, in candidate-list order. -/
def hadronTimes (event : List Particle) : List HadronTime :=
  (primaryHadrons event).map hadronTimeOf

/-- Lexicographic order on `(time, idx, status)` triples: the order used by
`std::sort` on `std::tuple<double,int,int>` at `first_emitted.cc` line 141. -/
def htLE (a b : HadronTime) : Prop :=
  a.time < b.time ∨
    (a.time = b.time ∧ (a.idx < b.idx ∨ (a.idx = b.idx ∧ a.status ≤ b.status)))

instance : DecidableRel htLE := fun a b =>
  inferInstanceAs (Decidable (a.time < b.time ∨
    (a.time = b.time ∧ (a.idx < b.idx ∨ (a.idx = b.idx ∧ a.status ≤ b.status)))))

instance : IsTotal HadronTime htLE := by
  constructor
  intro a b
  rcases lt_trichotomy a.time b.time with h | h | h
  · exact Or.inl (Or.inl h)
  · rcases lt_trichotomy a.idx b.idx with h2 | h2 | h2
    · exact Or.inl (Or.inr ⟨h, Or.inl h2⟩)
    · rcases le_total a.status b.status with h3 | h3
      · exact Or.inl (Or.inr ⟨h, Or.inr ⟨h2, h3⟩⟩)
      · exact Or.inr (Or.inr ⟨h.symm, Or.inr ⟨h2.symm, h3⟩⟩)
    · exact Or.inr (Or.inr ⟨h.symm, Or.inl h2⟩)
  · exact Or.inr (Or.inl h)

instance : IsTrans HadronTime htLE := by
  constructor
  intro a b c hab hbc
  rcases hab with hab | ⟨habt, hab⟩
  · rcases hbc with hbc | ⟨hbct, _⟩
    · exact Or.inl (hab.trans hbc)
    · exact Or.inl (hbct ▸ hab)
  · rcases hbc with hbc | ⟨hbct, hbc⟩
    · exact Or.inl (habt ▸ hbc)
    · refine Or.inr ⟨habt.trans hbct, ?_⟩
      rcases hab with hab | ⟨habi, habs⟩
      · rcases hbc with hbc | ⟨hbci, _⟩
        · exact Or.inl (hab.trans hbc)
        · exact Or.inl (hbci ▸ hab)
      · rcases hbc with hbc | ⟨hbci, hbcs⟩
        · exact Or.inl (habi ▸ hbc)
        · exact Or.inr ⟨habi.trans hbci, habs.trans hbcs⟩

/-- `first_emitted.cc` line 141: `std::sort(hadronTimes.begin(), ...)`.
The triples all have distinct `idx` components, so any comparison sort
produces this unique `htLE`-sorted permutation. -/
def sortedHadronTimes (event : List Particle) : List HadronTime :=
  List.insertionSort htLE (hadronTimes event)

/-- `first_emitted.cc` line 145: `const double timeTolerance = 1e-10`. -/
def timeTolerance : ℚ := 1 / 10 ^ 10

/-- `first_emitted.cc` lines 143-157: `earliestTime` is the head of the
sorted vector, and the loop admits candidates in sorted order while
`prodTime - earliestTime <= timeTolerance`, breaking at the first failure. -/
def simultaneousFirstHadrons (event : List Particle) : List ℕ :=
  match sortedHadronTimes event with
  | [] => []
  | h :: t =>
      ((h :: t).takeWhile (fun ht => decide (ht.time - h.time ≤ timeTolerance))).map
        HadronTime.idx

/-- One row of `first_hadron_data.csv` (`first_emitted.cc` header line 25):
`Event,Index,Name,ID,Status,px,py,pz,E,m,Mother1,Mother2,Daughter1,Daughter2,IsFinal`.
The event column is the serialized event index together with its optional
`"_k"` suffix; the final-state flag is serialized as `"1"`/`"0"`. -/
structure CsvRow where
  eventTag : String
  idx : ℕ
  name : String
  id : Int
  status : Int
  px : ℚ
  py : ℚ
  pz : ℚ
  e : ℚ
  m : ℚ
  mother1 : Int
  mother2 : Int
  daughter1 : Int
  daughter2 : Int
  isFinalCol : String
deriving DecidableEq, Repr

instance : Inhabited CsvRow :=
  ⟨{ eventTag := "", idx := 0, name := "", id := 0, status := 0, px := 0,
     py := 0, pz := 0, e := 0, m := 0, mother1 := 0, mother2 := 0,
     daughter1 := 0, daughter2 := 0, isFinalCol := "" }⟩

/-- The field list written for one hadron by both CSV branches of
`first_emitted.cc` (lines 252-268 and 284-300). -/
def csvRowFor (tag : String) (idx : ℕ) (hadron : Particle) : CsvRow :=
  { eventTag := tag, idx := idx, name := hadron.name, id := hadron.id,
    status := hadron.status, px := hadron.px, py := hadron.py,
    pz := hadron.pz, e := hadron.e, m := hadron.m,
    mother1 := hadron.mother1, mother2 := hadron.mother2,
    daughter1 := hadron.daughter1, daughter2 := hadron.daughter2,
    isFinalCol := if hadron.isFinal then "1" else "0" }

/-- `first_emitted.cc` lines 246-269: the multi-hadron CSV loop over
`simultaneousFirstHadrons`, position `k` receiving suffix `"_" + (k+1)`. -/
def csvRowsAux (iEvent : ℕ) (event : List Particle) : ℕ → List ℕ → List CsvRow
  | _, [] => []
  | k, idx :: rest =>
      csvRowFor (toString iEvent ++ "_" ++ toString (k + 1)) idx
          (event.getD idx default) ::
        csvRowsAux iEvent event (k + 1) rest

/-- The CSV rows `first_emitted.cc` emits for one generated event: nothing
when `primaryHadrons` is empty (the `continue` at lines 94-97); otherwise one
row per member of `simultaneousFirstHadrons`, through the multi-hadron branch
(lines 217, 246-269, suffixed event tags) when the group has more than one
member, and through the single-hadron branch (lines 271-301, bare event tag)
otherwise. -/
def csvRowsForEvent (iEvent : ℕ) (event : List Particle) : List CsvRow :=
  if primaryHadrons event = [] then []
  else
    let sims := simultaneousFirstHadrons event
    if 1 < sims.length then csvRowsAux iEvent event 0 sims
    else
      match sims with
      | i0 :: _ => [csvRowFor (toString iEvent) i0 (event.getD i0 default)]
      | [] => []

/-- `first_emitted.cc` line 227: `double totalStringEnergy = 10.0` — the
assumed string energy, twice the 5 GeV seed-parton energy of line 33. -/
def totalStringEnergy : ℚ := 10

/-- The seed-parton energy of `event.append(1, 23, 101, 0, 0.0, 0.0, 5.0,
5.0, 0.0)` at `first_emitted.cc` line 33. -/
def seedEnergy : ℚ := 5

/-- The momentum fractions `first_emitted.cc` reports on the console, one per
simultaneity-group member: `energy / totalStringEnergy` in the multi-hadron
branch (lines 221-228) and `energy / 10.0` in the single-hadron branch
(line 276). -/
def consoleZFractions (event : List Particle) : List ℚ :=
  let sims := simultaneousFirstHadrons event
  if 1 < sims.length then
    sims.map (fun idx => (event.getD idx default).e / totalStringEnergy)
  else
    match sims with
    | i0 :: _ => [(event.getD i0 default).e / 10]
    | [] => []

/-- The numeric fields of a `first_hadron_data.csv` row, as rationals. -/
def rowRats (r : CsvRow) : List ℚ :=
  [(r.idx : ℚ), (r.id : ℚ), (r.status : ℚ), r.px, r.py, r.pz, r.e, r.m,
   (r.mother1 : ℚ), (r.mother2 : ℚ), (r.daughter1 : ℚ), (r.daughter2 : ℚ)]

/-- `hadronic50gev.cc` lines 35-36: `pidAbs == 111 || pidAbs == 211`. -/
def isPionId (p : Particle) : Bool :=
  decide (p.id.natAbs = 111) || decide (p.id.natAbs = 211)

/-- A final-state pion candidate of the `hadronic50gev.cc` scan: species
check first (line 36), then the final-state check (line 37). -/
def pionCand (p : Particle) : Bool := isPionId p && p.isFinal

/-- The final-state pion candidates of an event, with their list indices. -/
def finalPions (event : List Particle) : List (ℕ × Particle) :=
  collectAux pionCand 0 event

/-- `hadronic50gev.cc` lines 31-45: the scan for the most energetic pion,
starting from `mostEnergeticPion = -1` (modelled `none`) and
`maxEnergy = 0.0`, updating on `energy > maxEnergy`. -/
def pionScanAux : ℕ → List Particle → Option ℕ → ℚ → Option ℕ × ℚ
  | _, [], best, maxE => (best, maxE)
  | i, p :: rest, best, maxE =>
      if isPionId p then
        if p.isFinal then
          if maxE < p.e then pionScanAux (i + 1) rest (some i) p.e
          else pionScanAux (i + 1) rest best maxE
        else pionScanAux (i + 1) rest best maxE
      else pionScanAux (i + 1) rest best maxE

/-- The selected index after the `hadronic50gev.cc` scan, `none` when the
sentinel `-1` survives. -/
def mostEnergeticPion (event : List Particle) : Option ℕ :=
  (pionScanAux 0 event none 0).1

/-- One row of `events_output_100gev.csv` (`hadronic50gev.cc` line 17):
`Event,Particle,Particle_pz,Particle_pT,Particle_px,Particle_py,Particle_E`. -/
structure PionRow where
  event : ℕ
  name : String
  pzCol : ℚ
  pTCol : ℚ
  pxCol : ℚ
  pyCol : ℚ
  eCol : ℚ
deriving DecidableEq, Repr

/-- `hadronic50gev.cc` lines 48-54: the exported row for the selected pion,
with `std::abs` applied to `pz` only. -/
def pionRowFor (iEvent : ℕ) (p : Particle) : PionRow :=
  { event := iEvent, name := p.name, pzCol := |p.pz|, pTCol := p.pT,
    pxCol := p.px, pyCol := p.py, eCol := p.e }

/-- `hadronic50gev.cc` lines 47-55: one row when the scan selected a pion,
none otherwise. -/
def hadronic50Rows (iEvent : ℕ) (event : List Particle) : List PionRow :=
  match mostEnergeticPion event with
  | some i => [pionRowFor iEvent (event.getD i default)]
  | none => []

/-- One row of `first_emission_50gev.csv` (`jinghong-test.cc` line 33):
`Event,Name,Pid,Particle_px,Particle_py,Particle_pz,Particle_E,Particle_pT`. -/
structure EmissionRow where
  event : ℕ
  name : String
  pid : Int
  pxCol : ℚ
  pyCol : ℚ
  pzCol : ℚ
  eCol : ℚ
  pTCol : ℚ
deriving DecidableEq, Repr

/-- The field list written by `jinghong-test.cc` lines 50-57. -/
def emissionRowFor (iEvent : ℕ) (p : Particle) : EmissionRow :=
  { event := iEvent, name := p.name, pid := p.id, pxCol := p.px,
    pyCol := p.py, pzCol := p.pz, eCol := p.e, pTCol := p.pT }

/-- `jinghong-test.cc` lines 48-60: scan the event in order, export the first
particle with `isFinal()` and `break`; the species is never inspected. -/
def firstFinalRow (iEvent : ℕ) : List Particle → List EmissionRow
  | [] => []
  | p :: rest =>
      if p.isFinal then [emissionRowFor iEvent p] else firstFinalRow iEvent rest

/-- One row of `momentum_data.csv` (`main.cc` line 59):
`# Event,Particle_ID,px,py,pz,E,mass`. -/
structure MomentumRow where
  event : ℕ
  pid : Int
  pxCol : ℚ
  pyCol : ℚ
  pzCol : ℚ
  eCol : ℚ
  mCol : ℚ
deriving DecidableEq, Repr

/-- The field list written by `main.cc` lines 77-83. -/
def momentumRowFor (iEvent : ℕ) (p : Particle) : MomentumRow :=
  { event := iEvent, pid := p.id, pxCol := p.px, pyCol := p.py,
    pzCol := p.pz, eCol := p.e, mCol := p.m }

/-- `main.cc` lines 75-85: one row for every particle with
`isFinal() && isHadron()`, in list order. -/
def momentumRows (iEvent : ℕ) : List Particle → List MomentumRow
  | [] => []
  | p :: rest =>
      if p.isFinal && p.isHadron then
        momentumRowFor iEvent p :: momentumRows iEvent rest
      else momentumRows iEvent rest

/-- The outer event loop shared by all scripts (`first_emitted.cc` lines
28-40, `hadronic50gev.cc` lines 20-29, ...): for each iteration the generator
either fails — the script prints a notice and `continue`s — or yields an
event whose rows are appended to the output sink.  Returns the accumulated
rows and the number of failure notices. -/
def runLoop {α : Type} (rowsFor : ℕ → List Particle → List α)
    (gen : ℕ → Option (List Particle)) (nEvent : ℕ) : List α × ℕ :=
  (List.range nEvent).foldl
    (fun acc i =>
      match gen i with
      | none => (acc.1, acc.2 + 1)
      | some ev => (acc.1 ++ rowsFor i ev, acc.2))
    ([], 0)

/-- Correctness predicate for the running state `(best, maxEnergy)` of the
`hadronic50gev.cc` scan with respect to the candidates already processed:
the sentinel state has `maxEnergy = 0` and only non-positive-energy
candidates seen; a selected state holds a positive maximal energy attained by
the selected index, every processed candidate is no more energetic, and ties
are resolved towards the earlier index. -/
def ScanOK (cands : List (ℕ × Particle)) : Option ℕ × ℚ → Prop
  | (none, maxE) => maxE = 0 ∧ ∀ q ∈ cands, q.2.e ≤ 0
  | (some i, maxE) =>
      0 < maxE ∧ (∃ p, (i, p) ∈ cands ∧ p.e = maxE) ∧
        ∀ q ∈ cands, q.2.e ≤ maxE ∧ (q.2.e = maxE → i ≤ q.1)

/-- A sample particle record: fixed kinematics apart from species id, status,
energy, the hadron flag and the production vertex. -/
def sampleP (id status : Int) (e : ℚ) (hadron : Bool) (v : Option Vec4) :
    Particle :=
  { id := id, status := status, px := 1, py := 0, pz := -2, e := e, m := 1,
    pT := 1, mother1 := 1, mother2 := 2, daughter1 := 0, daughter2 := 0,
    isHadronFlag := hadron, name := "h", vProd := v }

/-- Two primary hadrons produced at times 0 and 5. -/
def evC2W : List Particle :=
  [sampleP 211 81 3 true (some { x := 0, y := 0, z := 0, t := 0 }),
   sampleP 111 (-83) 4 true (some { x := 0, y := 0, z := 0, t := 5 })]

/-- Two primary hadrons, the first with a production vertex at time 7, the
second with no production vertex at all. -/
def evMix : List Particle :=
  [sampleP 211 81 3 true (some { x := 0, y := 0, z := 0, t := 7 }),
   sampleP 111 81 4 true none]

/-- The `hadronTimes` entry of the first candidate of `evMix`. -/
def htMix : HadronTime := { time := 7, idx := 0, status := 81 }

/-- A single final-state record that is not a hadron (a photon, id 22). -/
def evC4 : List Particle := [sampleP 22 1 3 false none]

/-- A final-state hadron preceded by a non-final parton. -/
def evC10 : List Particle :=
  [sampleP 1 (-23) 5 false none, sampleP 211 81 3 true none]

/-- Two final-state charged pions with the same energy. -/
def evTie : List Particle :=
  [sampleP 211 1 3 true none, sampleP 211 1 3 true none]

/-- A single final-state record with species id `-111`. -/
def evNeg : List Particle := [sampleP (-111) 1 3 true none]

/-- A single final-state charged pion of energy 3. -/
def pW : Particle := sampleP 211 1 3 true none

/-- The event holding just `pW`. -/
def evC5W : List Particle := [pW]

/-- A single primary hadron of energy 3 produced at time 0. -/
def evSingle : List Particle :=
  [sampleP 211 81 3 true (some { x := 0, y := 0, z := 0, t := 0 })]

/-- Two primary hadrons produced simultaneously (both at time 0). -/
def evMulti : List Particle :=
  [sampleP 211 81 3 true (some { x := 0, y := 0, z := 0, t := 0 }),
   sampleP 111 82 4 true (some { x := 0, y := 0, z := 0, t := 0 })]

/-- A generator that fails on iteration 1 and yields `evSingle` otherwise. -/
def genW : ℕ → Option (List Particle) :=
  fun i => if i = 1 then none else some evSingle



/-- `C1`: the primary-hadron classifier returns `true` iff the record's
species is a hadron and the absolute value of its status code lies in the
inclusive range `[81, 89]`; consequently magnitudes 80, 90, 0 and everything
else outside the range are rejected while 81 and 89 are accepted. -/
theorem C1_primary_hadron_classifier (p : Particle) :
    isPrimaryHadron p = true ↔
      (p.isHadron = true ∧ 81 ≤ |p.status| ∧ |p.status| ≤ 89) := by
  simp only [isPrimaryHadron, Bool.and_eq_true, decide_eq_true_eq,
    Int.abs_eq_natAbs]
  constructor
  · rintro ⟨⟨h81, h89⟩, hh⟩
    exact ⟨hh, by omega, by omega⟩
  · rintro ⟨hh, h81, h89⟩
    exact ⟨⟨by omega, by omega⟩, hh⟩



lemma collectAux_mem (pred : Particle → Bool) :
    ∀ (ev : List Particle) (n i : ℕ) (p : Particle),
      (i, p) ∈ collectAux pred n ev ↔
        (n ≤ i ∧ ev[i - n]? = some p ∧ pred p = true) := by
  intro ev
  induction ev with
  | nil => intro n i p; simp [collectAux]
  | cons q rest ih =>
    intro n i p
    constructor
    · intro hmem
      simp only [collectAux] at hmem
      have htail :
          (i, p) ∈ collectAux pred (n + 1) rest →
            n ≤ i ∧ (q :: rest)[i - n]? = some p ∧ pred p = true := by
        intro hm
        obtain ⟨hle, hget, hpred⟩ := (ih (n + 1) i p).mp hm
        refine ⟨by omega, ?_, hpred⟩
        have hd : i - n = (i - (n + 1)) + 1 := by omega
        rw [hd, List.getElem?_cons_succ]
        exact hget
      by_cases hq : pred q
      · rw [if_pos hq] at hmem
        rcases List.mem_cons.mp hmem with heq | hm
        · have h1 : i = n := congrArg Prod.fst heq
          have h2 : p = q := congrArg Prod.snd heq
          subst h1
          subst h2
          exact ⟨le_refl i, by simp, hq⟩
        · exact htail hm
      · rw [if_neg hq] at hmem
        exact htail hmem
    · rintro ⟨hle, hget, hpred⟩
      simp only [collectAux]
      by_cases hi : i = n
      · subst hi
        simp only [Nat.sub_self, List.getElem?_cons_zero, Option.some.injEq] at hget
        subst hget
        rw [if_pos hpred]
        exact List.mem_cons_self _ _
      · have hd : i - n = (i - (n + 1)) + 1 := by omega
        rw [hd, List.getElem?_cons_succ] at hget
        have hm := (ih (n + 1) i p).mpr ⟨by omega, hget, hpred⟩
        by_cases hq : pred q
        · rw [if_pos hq]
          exact List.mem_cons_of_mem _ hm
        · rw [if_neg hq]
          exact hm

lemma collectAux_fst_le (pred : Particle → Bool) :
    ∀ (ev : List Particle) (n : ℕ) (q : ℕ × Particle),
      q ∈ collectAux pred n ev → n ≤ q.1 := by
  intro ev
  induction ev with
  | nil => intro n q hq; simp [collectAux] at hq
  | cons p rest ih =>
    intro n q hq
    by_cases hp : pred p
    · simp only [collectAux, hp, if_true, List.mem_cons] at hq
      rcases hq with rfl | hq
      · exact le_refl n
      · exact le_of_lt (lt_of_lt_of_le (Nat.lt_succ_self n) (ih (n + 1) q hq))
    · simp only [collectAux, hp, if_false] at hq
      exact le_of_lt (lt_of_lt_of_le (Nat.lt_succ_self n) (ih (n + 1) q hq))

lemma collectAux_pairwise_fst (pred : Particle → Bool) :
    ∀ (ev : List Particle) (n : ℕ),
      (collectAux pred n ev).Pairwise (fun a b => a.1 < b.1) := by
  intro ev
  induction ev with
  | nil => intro n; simp [collectAux]
  | cons p rest ih =>
    intro n
    by_cases hp : pred p
    · simp only [collectAux, hp, if_true]
      refine List.pairwise_cons.mpr ⟨?_, ih (n + 1)⟩
      intro q hq
      exact lt_of_lt_of_le (Nat.lt_succ_self n) (collectAux_fst_le pred rest (n + 1) q hq)
    · simp only [collectAux, hp, if_false]
      exact ih (n + 1)

lemma hadronTimes_pairwise_idx (event : List Particle) :
    (hadronTimes event).Pairwise (fun a b => a.idx < b.idx) := by
  unfold hadronTimes primaryHadrons
  rw [List.pairwise_map]
  exact collectAux_pairwise_fst isPrimaryHadron event 0


lemma mem_hadronTimes_iff (event : List Particle) (ht : HadronTime) :
    ht ∈ hadronTimes event ↔
      ∃ ip, ip ∈ primaryHadrons event ∧ hadronTimeOf ip = ht := by
  unfold hadronTimes
  simp [List.mem_map]

/-- `C3` (amended): each candidate's ordering key is taken per candidate —
the time component of its production four-position when that is available,
and its own list index otherwise.  The fallback is not coordinated across the
event: it applies to exactly those candidates whose vertex is missing. -/
theorem C3_production_time_key (event : List Particle) (ht : HadronTime)
    (hmem : ht ∈ hadronTimes event) :
    ∃ p, event[ht.idx]? = some p ∧ isPrimaryHadron p = true ∧
      ((∃ vtx, p.vProd = some vtx ∧ ht.time = vtx.t) ∨
        (p.vProd = none ∧ ht.time = (ht.idx : ℚ))) := by
  obtain ⟨ip, hip, heq⟩ := (mem_hadronTimes_iff event ht).mp hmem
  obtain ⟨i, p⟩ := ip
  obtain ⟨-, hget, hpred⟩ :=
    (collectAux_mem isPrimaryHadron event 0 i p).mp hip
  have hidx : ht.idx = i := by rw [← heq]; rfl
  refine ⟨p, ?_, hpred, ?_⟩
  · rw [hidx]
    simpa using hget
  · cases hv : p.vProd with
    | some vtx =>
        left
        refine ⟨vtx, rfl, ?_⟩
        rw [← heq]
        simp [hadronTimeOf, hv]
    | none =>
        right
        refine ⟨rfl, ?_⟩
        rw [← heq]
        simp [hadronTimeOf, hv]

/-- Witness for `C3_production_time_key` at the concrete event `evMix`. -/
theorem C3_production_time_key_witness :
    ∃ p, evMix[htMix.idx]? = some p ∧ isPrimaryHadron p = true ∧
      ((∃ vtx, p.vProd = some vtx ∧ htMix.time = vtx.t) ∨
        (p.vProd = none ∧ htMix.time = (htMix.idx : ℚ))) :=
  C3_production_time_key evMix htMix (by decide)

/-- `C3` counterexample: in the single event `evMix` the first candidate's
ordering key is its vertex time 7 (not its list index 0) while the second
candidate, whose production vertex is unavailable, is keyed by its list
index 1 — the two fallback modes mix within one event, contrary to the
claim's consistency requirement. -/
theorem C3_mixed_mode_counterexample :
    (evMix.getD 0 default).vProd = some { x := 0, y := 0, z := 0, t := 7 } ∧
    (evMix.getD 1 default).vProd = none ∧
    (hadronTimes evMix).map HadronTime.time = [7, 1] ∧
    (hadronTimes evMix).map HadronTime.idx = [0, 1] := by
  decide


lemma momentumRows_mem (iE : ℕ) :
    ∀ (ev : List Particle) (r : MomentumRow),
      r ∈ momentumRows iE ev ↔
        ∃ q, q ∈ ev ∧ (q.isFinal && q.isHadron) = true ∧
          r = momentumRowFor iE q := by
  intro ev
  induction ev with
  | nil => intro r; simp [momentumRows]
  | cons p rest ih =>
    intro r
    by_cases hp : (p.isFinal && p.isHadron) = true
    · simp only [momentumRows, hp, if_true, List.mem_cons, ih]
      constructor
      · rintro (rfl | ⟨q, hq, hqsel, rfl⟩)
        · exact ⟨p, Or.inl rfl, hp, rfl⟩
        · exact ⟨q, Or.inr hq, hqsel, rfl⟩
      · rintro ⟨q, (rfl | hq), hqsel, rfl⟩
        · exact Or.inl rfl
        · exact Or.inr ⟨q, hq, hqsel, rfl⟩
    · rw [momentumRows, if_neg hp]
      rw [ih]
      constructor
      · rintro ⟨q, hq, hqsel, rfl⟩
        exact ⟨q, List.mem_cons_of_mem p hq, hqsel, rfl⟩
      · rintro ⟨q, hq, hqsel, rfl⟩
        rcases List.mem_cons.mp hq with rfl | hq
        · exact absurd hqsel hp
        · exact ⟨q, hq, hqsel, rfl⟩

lemma firstFinalRow_mem_src (iE : ℕ) :
    ∀ (ev : List Particle) (r : EmissionRow),
      r ∈ firstFinalRow iE ev →
        ∃ q, q ∈ ev ∧ q.isFinal = true ∧ r = emissionRowFor iE q := by
  intro ev
  induction ev with
  | nil => intro r hr; simp [firstFinalRow] at hr
  | cons p rest ih =>
    intro r hr
    by_cases hp : p.isFinal
    · rw [firstFinalRow, if_pos hp] at hr
      rcases List.mem_singleton.mp hr with rfl
      exact ⟨p, List.mem_cons_self p rest, hp, rfl⟩
    · rw [firstFinalRow, if_neg hp] at hr
      obtain ⟨q, hq, hfin, rfl⟩ := ih r hr
      exact ⟨q, List.mem_cons_of_mem p hq, hfin, rfl⟩

lemma isFinal_iff (p : Particle) : p.isFinal = true ↔ 0 < p.status := by
  simp [Particle.isFinal]

/-- `C4` (amended): in `main.cc` a particle is selected for the final-state
CSV iff it is final (`status > 0`) and a hadron, so every `momentum_data.csv`
row comes from a final-state hadron; in `jinghong-test.cc` however only
finality is checked, so every `first_emission_*.csv` row comes from a record
with `status > 0` that is not necessarily a hadron. -/
theorem C4_final_state_selection (p0 : Particle) (iE : ℕ)
    (ev : List Particle) :
    ((p0.isFinal && p0.isHadron) = true ↔
      (0 < p0.status ∧ p0.isHadron = true)) ∧
    (∀ r ∈ momentumRows iE ev,
      ∃ q, q ∈ ev ∧ 0 < q.status ∧ q.isHadron = true ∧
        r = momentumRowFor iE q) ∧
    (∀ q ∈ ev, (q.isFinal && q.isHadron) = true →
      momentumRowFor iE q ∈ momentumRows iE ev) ∧
    (∀ r ∈ firstFinalRow iE ev,
      ∃ q, q ∈ ev ∧ 0 < q.status ∧ r = emissionRowFor iE q) := by
  refine ⟨?_, ?_, ?_, ?_⟩
  · rw [Bool.and_eq_true, isFinal_iff]
  · intro r hr
    obtain ⟨q, hq, hsel, rfl⟩ := (momentumRows_mem iE ev r).mp hr
    obtain ⟨hfin, hhad⟩ := Bool.and_eq_true .. |>.mp hsel
    exact ⟨q, hq, (isFinal_iff q).mp hfin, hhad, rfl⟩
  · intro q hq hsel
    exact (momentumRows_mem iE ev (momentumRowFor iE q)).mpr ⟨q, hq, hsel, rfl⟩
  · intro r hr
    obtain ⟨q, hq, hfin, rfl⟩ := firstFinalRow_mem_src iE ev r hr
    exact ⟨q, hq, (isFinal_iff q).mp hfin, rfl⟩

/-- Witness for `C4_final_state_selection`: a final-state hadron is selected
by the `main.cc` path and yields a `momentum_data.csv` row. -/
theorem C4_final_state_selection_witness :
    (pW.isFinal && pW.isHadron) = true ∧
      momentumRowFor 4 pW ∈ momentumRows 4 [pW] := by
  obtain ⟨h1, -, h3, -⟩ := C4_final_state_selection pW 4 [pW]
  have hsel : (pW.isFinal && pW.isHadron) = true := h1.mpr (by decide)
  exact ⟨hsel, h3 pW (List.mem_cons_self pW []) hsel⟩

/-- `C4` counterexample: `evC4` holds a single final-state photon (id 22,
not a hadron); the `jinghong-test.cc` export loop nevertheless emits a row
for it, so the final-state path does not select records iff they are both
final and hadrons. -/
theorem C4_nonhadron_export_counterexample :
    firstFinalRow 0 evC4 = [emissionRowFor 0 (evC4.getD 0 default)] ∧
    (evC4.getD 0 default).isFinal = true ∧
    (evC4.getD 0 default).isHadron = false ∧
    (evC4.getD 0 default).id = 22 := by
  decide

/-- `C10`: the `jinghong-test.cc` loop exports at most one row per event —
the first final-state particle in list order, whatever its species — and no
row when the event has no final-state particle. -/
theorem C10_first_emission_single_row (iE : ℕ) (ev : List Particle) :
    (firstFinalRow iE ev).length ≤ 1 ∧
    (firstFinalRow iE ev = [] ↔ ∀ p ∈ ev, p.isFinal = false) ∧
    (∀ r ∈ firstFinalRow iE ev,
      ∃ (i : ℕ) (p : Particle), ev[i]? = some p ∧ p.isFinal = true ∧
        (∀ (j : ℕ) (q : Particle), j < i → ev[j]? = some q →
          q.isFinal = false) ∧
        r = emissionRowFor iE p) := by
  induction ev with
  | nil => simp [firstFinalRow]
  | cons p rest ih =>
    obtain ⟨ih1, ih2, ih3⟩ := ih
    by_cases hp : p.isFinal
    · refine ⟨?_, ?_, ?_⟩
      · rw [firstFinalRow, if_pos hp]
        exact le_refl 1
      · rw [firstFinalRow, if_pos hp]
        constructor
        · intro h; simp at h
        · intro hall
          have := hall p (List.mem_cons_self p rest)
          rw [hp] at this
          exact absurd this (by simp)
      · intro r hr
        rw [firstFinalRow, if_pos hp] at hr
        rcases List.mem_singleton.mp hr with rfl
        refine ⟨0, p, List.getElem?_cons_zero, hp, ?_, rfl⟩
        intro j q hj
        omega
    · have hfalse : p.isFinal = false := by
        simpa using hp
      refine ⟨?_, ?_, ?_⟩
      · rw [firstFinalRow, if_neg hp]
        exact ih1
      · rw [firstFinalRow, if_neg hp]
        rw [ih2]
        constructor
        · intro hall q hq
          rcases List.mem_cons.mp hq with rfl | hq
          · exact hfalse
          · exact hall q hq
        · intro hall q hq
          exact hall q (List.mem_cons_of_mem p hq)
      · intro r hr
        rw [firstFinalRow, if_neg hp] at hr
        obtain ⟨i, q, hget, hfin, hpre, rfl⟩ := ih3 r hr
        refine ⟨i + 1, q, by rw [List.getElem?_cons_succ]; exact hget, hfin,
          ?_, rfl⟩
        intro j q2 hj hget2
        cases j with
        | zero =>
            simp only [List.getElem?_cons_zero, Option.some.injEq] at hget2
            rw [← hget2]
            exact hfalse
        | succ j =>
            rw [List.getElem?_cons_succ] at hget2
            exact hpre j q2 (by omega) hget2

/-- Witness for `C10_first_emission_single_row` at `evC10`, whose first
final-state particle sits at index 1. -/
theorem C10_first_emission_single_row_witness :
    ∃ (i : ℕ) (p : Particle), evC10[i]? = some p ∧ p.isFinal = true ∧
      (∀ (j : ℕ) (q : Particle), j < i → evC10[j]? = some q →
        q.isFinal = false) ∧
      emissionRowFor 5 (evC10.getD 1 default) = emissionRowFor 5 p :=
  (C10_first_emission_single_row 5 evC10).2.2
    (emissionRowFor 5 (evC10.getD 1 default)) (by decide)

lemma sorted_perm (event : List Particle) :
    List.Perm (sortedHadronTimes event) (hadronTimes event) :=
  List.perm_insertionSort htLE (hadronTimes event)

lemma htLE_time_le {a b : HadronTime} (h : htLE a b) : a.time ≤ b.time := by
  rcases h with h | ⟨h, -⟩
  · exact le_of_lt h
  · exact le_of_eq h

lemma sorted_htLE_pairwise (event : List Particle) :
    (sortedHadronTimes event).Pairwise htLE :=
  List.sorted_insertionSort htLE (hadronTimes event)

lemma sorted_time_pairwise (event : List Particle) :
    (sortedHadronTimes event).Pairwise (fun a b => a.time ≤ b.time) :=
  (sorted_htLE_pairwise event).imp htLE_time_le

lemma sorted_idx_nodup (event : List Particle) :
    ((sortedHadronTimes event).map HadronTime.idx).Nodup := by
  have h1 : ((hadronTimes event).map HadronTime.idx).Nodup := by
    have := hadronTimes_pairwise_idx event
    exact List.pairwise_map.mpr (this.imp (fun hab => Nat.ne_of_lt hab))
  exact (((sorted_perm event).map HadronTime.idx).nodup_iff).mpr h1

lemma sorted_ties_idx (event : List Particle) :
    (sortedHadronTimes event).Pairwise
      (fun a b => a.time = b.time → a.idx < b.idx) := by
  have h1 := sorted_htLE_pairwise event
  have h2 : (sortedHadronTimes event).Pairwise (fun a b => a.idx ≠ b.idx) :=
    List.pairwise_map.mp (sorted_idx_nodup event)
  refine (h1.and h2).imp ?_
  rintro a b ⟨hle, hne⟩ htime
  rcases hle with hlt | ⟨-, hidx | ⟨hidx, -⟩⟩
  · exact absurd htime (ne_of_lt hlt)
  · exact hidx
  · exact absurd hidx hne

lemma timeTolerance_nonneg : (0 : ℚ) ≤ timeTolerance := by
  norm_num [timeTolerance]

lemma takeWhile_eq_filter_tol (e0 : ℚ) :
    ∀ (l : List HadronTime), l.Pairwise (fun a b => a.time ≤ b.time) →
      l.takeWhile (fun ht => decide (ht.time - e0 ≤ timeTolerance)) =
        l.filter (fun ht => decide (ht.time - e0 ≤ timeTolerance)) := by
  intro l
  induction l with
  | nil => intro _; rfl
  | cons a l ih =>
    intro hpw
    obtain ⟨ha, hl⟩ := List.pairwise_cons.mp hpw
    by_cases hp : a.time - e0 ≤ timeTolerance
    · rw [List.takeWhile_cons_of_pos (by simpa using hp),
        List.filter_cons_of_pos (by simpa using hp)]
      rw [ih hl]
    · rw [List.takeWhile_cons_of_neg (by simpa using hp),
        List.filter_cons_of_neg (by simpa using hp)]
      symm
      rw [List.filter_eq_nil_iff]
      intro b hb
      have hab : a.time ≤ b.time := ha b hb
      simp only [decide_eq_true_eq]
      intro hcon
      exact hp (by linarith)

lemma hadronTimes_eq_nil (event : List Particle) :
    hadronTimes event = [] ↔ primaryHadrons event = [] := by
  unfold hadronTimes
  exact List.map_eq_nil_iff

lemma sorted_eq_nil (event : List Particle) :
    sortedHadronTimes event = [] ↔ hadronTimes event = [] := by
  constructor
  · intro hs
    have := (sorted_perm event).length_eq
    rw [hs] at this
    exact List.length_eq_zero.mp this.symm
  · intro hh
    have := (sorted_perm event).length_eq
    rw [hh] at this
    exact List.length_eq_zero.mp this

lemma sims_ne_nil {event : List Particle}
    (h : primaryHadrons event ≠ []) : simultaneousFirstHadrons event ≠ [] := by
  have hh : hadronTimes event ≠ [] := fun hc =>
    h ((hadronTimes_eq_nil event).mp hc)
  have hsne : sortedHadronTimes event ≠ [] := fun hc =>
    hh ((sorted_eq_nil event).mp hc)
  cases hs : sortedHadronTimes event with
  | nil => exact absurd hs hsne
  | cons h0 t =>
      simp only [simultaneousFirstHadrons, hs]
      rw [List.takeWhile_cons_of_pos
        (by simp [sub_self, timeTolerance_nonneg])]
      simp

/-- `C2`: on a non-empty candidate set the resolver sorts the candidates by
production time ascending (candidate order — equivalently index order — is
preserved on time ties), `earliestTime` (the head of the sorted vector) is
the minimum production time and is attained, and the simultaneity group is
exactly the image of the sorted candidates whose production time `t`
satisfies `t - earliest ≤ 1e-10` (the `break` loses nothing, because in
sorted order every candidate past the first violator also violates the
tolerance); the group is never empty and every member stays within the
tolerance of the minimum. -/
theorem C2_simultaneity_resolver (event : List Particle)
    (h : hadronTimes event ≠ []) :
    List.Perm (sortedHadronTimes event) (hadronTimes event) ∧
    (sortedHadronTimes event).Pairwise (fun a b => a.time ≤ b.time) ∧
    (hadronTimes event).Pairwise (fun a b => a.idx < b.idx) ∧
    (sortedHadronTimes event).Pairwise
      (fun a b => a.time = b.time → a.idx < b.idx) ∧
    (∀ ht ∈ hadronTimes event,
      ((sortedHadronTimes event).headD default).time ≤ ht.time) ∧
    (∃ ht ∈ hadronTimes event,
      ht.time = ((sortedHadronTimes event).headD default).time) ∧
    simultaneousFirstHadrons event =
      ((sortedHadronTimes event).filter
        (fun ht => decide (ht.time -
          ((sortedHadronTimes event).headD default).time ≤
            timeTolerance))).map HadronTime.idx ∧
    simultaneousFirstHadrons event ≠ [] ∧
    (∀ ht ∈ sortedHadronTimes event,
      ht.idx ∈ simultaneousFirstHadrons event →
        ht.time - ((sortedHadronTimes event).headD default).time ≤
          timeTolerance) := by
  have hsne : sortedHadronTimes event ≠ [] := fun hc =>
    h ((sorted_eq_nil event).mp hc)
  have hperm := sorted_perm event
  have htime := sorted_time_pairwise event
  have hmin : ∀ ht ∈ hadronTimes event,
      ((sortedHadronTimes event).headD default).time ≤ ht.time := by
    intro ht hmem
    have hmem2 : ht ∈ sortedHadronTimes event := hperm.mem_iff.mpr hmem
    cases hs : sortedHadronTimes event with
    | nil => exact absurd hs hsne
    | cons h0 t =>
        rw [List.headD_cons]
        rw [hs] at hmem2
        rcases List.mem_cons.mp hmem2 with rfl | hmem2
        · exact le_refl _
        · have := List.pairwise_cons.mp (hs ▸ htime)
          exact this.1 ht hmem2
  have hattain : ∃ ht ∈ hadronTimes event,
      ht.time = ((sortedHadronTimes event).headD default).time := by
    cases hs : sortedHadronTimes event with
    | nil => exact absurd hs hsne
    | cons h0 t =>
        refine ⟨h0, ?_, by rw [List.headD_cons]⟩
        exact hperm.mem_iff.mp (hs ▸ List.mem_cons_self h0 t)
  have hfilter : simultaneousFirstHadrons event =
      ((sortedHadronTimes event).filter
        (fun ht => decide (ht.time -
          ((sortedHadronTimes event).headD default).time ≤
            timeTolerance))).map HadronTime.idx := by
    cases hs : sortedHadronTimes event with
    | nil => exact absurd hs hsne
    | cons h0 t =>
        simp only [simultaneousFirstHadrons, hs, List.headD_cons]
        rw [takeWhile_eq_filter_tol h0.time (h0 :: t) (hs ▸ htime)]
  have hne := sims_ne_nil (fun hc => h ((hadronTimes_eq_nil event).mpr hc))
  refine ⟨hperm, htime, hadronTimes_pairwise_idx event, sorted_ties_idx event,
    hmin, hattain, hfilter, hne, ?_⟩
  intro ht hmem hin
  rw [hfilter] at hin
  obtain ⟨ht2, hht2, hidx_eq⟩ := List.mem_map.mp hin
  obtain ⟨hmem2, hpred⟩ := List.mem_filter.mp hht2
  have heq : ht2 = ht :=
    List.inj_on_of_nodup_map (sorted_idx_nodup event) hmem2 hmem hidx_eq
  rw [← heq]
  exact of_decide_eq_true hpred

/-- Witness for `C2_simultaneity_resolver` at the two-candidate event
`evC2W` (production times 0 and 5). -/
theorem C2_simultaneity_resolver_witness :
    List.Perm (sortedHadronTimes evC2W) (hadronTimes evC2W) ∧
    (sortedHadronTimes evC2W).Pairwise (fun a b => a.time ≤ b.time) ∧
    (hadronTimes evC2W).Pairwise (fun a b => a.idx < b.idx) ∧
    (sortedHadronTimes evC2W).Pairwise
      (fun a b => a.time = b.time → a.idx < b.idx) ∧
    (∀ ht ∈ hadronTimes evC2W,
      ((sortedHadronTimes evC2W).headD default).time ≤ ht.time) ∧
    (∃ ht ∈ hadronTimes evC2W,
      ht.time = ((sortedHadronTimes evC2W).headD default).time) ∧
    simultaneousFirstHadrons evC2W =
      ((sortedHadronTimes evC2W).filter
        (fun ht => decide (ht.time -
          ((sortedHadronTimes evC2W).headD default).time ≤
            timeTolerance))).map HadronTime.idx ∧
    simultaneousFirstHadrons evC2W ≠ [] ∧
    (∀ ht ∈ sortedHadronTimes evC2W,
      ht.idx ∈ simultaneousFirstHadrons evC2W →
        ht.time - ((sortedHadronTimes evC2W).headD default).time ≤
          timeTolerance) :=
  C2_simultaneity_resolver evC2W (by decide)

lemma scanOK_nonneg {cands : List (ℕ × Particle)} {best : Option ℕ}
    {maxE : ℚ} (h : ScanOK cands (best, maxE)) : 0 ≤ maxE := by
  cases best with
  | none => simp only [ScanOK] at h; rw [h.1]
  | some i => simp only [ScanOK] at h; exact le_of_lt h.1

lemma scanOK_le {cands : List (ℕ × Particle)} {best : Option ℕ} {maxE : ℚ}
    (h : ScanOK cands (best, maxE)) : ∀ q ∈ cands, q.2.e ≤ maxE := by
  intro q hq
  cases best with
  | none => simp only [ScanOK] at h; rw [h.1]; exact h.2 q hq
  | some i => simp only [ScanOK] at h; exact (h.2.2 q hq).1

lemma pionScanAux_ok :
    ∀ (ev : List Particle) (n : ℕ) (pre : List (ℕ × Particle))
      (best : Option ℕ) (maxE : ℚ),
      ScanOK pre (best, maxE) → (∀ q ∈ pre, q.1 < n) →
      ScanOK (pre ++ collectAux pionCand n ev) (pionScanAux n ev best maxE) := by
  intro ev
  induction ev with
  | nil =>
      intro n pre best maxE hok hbound
      simpa [collectAux, pionScanAux] using hok
  | cons p rest ih =>
      intro n pre best maxE hok hbound
      by_cases hpion : isPionId p = true
      · by_cases hfin : p.isFinal = true
        · have hcand : pionCand p = true := by
            simp [pionCand, hpion, hfin]
          have hcollect : collectAux pionCand n (p :: rest) =
              (n, p) :: collectAux pionCand (n + 1) rest := by
            simp [collectAux, hcand]
          have hsplit : pre ++ (n, p) :: collectAux pionCand (n + 1) rest =
              (pre ++ [(n, p)]) ++ collectAux pionCand (n + 1) rest := by
            simp
          have hbound2 : ∀ q ∈ pre ++ [(n, p)], q.1 < n + 1 := by
            intro q hq
            rcases List.mem_append.mp hq with hq | hq
            · exact lt_trans (hbound q hq) (Nat.lt_succ_self n)
            · rcases List.mem_singleton.mp hq with rfl
              exact Nat.lt_succ_self n
          by_cases hlt : maxE < p.e
          · have hstep : pionScanAux n (p :: rest) best maxE =
                pionScanAux (n + 1) rest (some n) p.e := by
              simp [pionScanAux, hpion, hfin, hlt]
            rw [hstep, hcollect, hsplit]
            refine ih (n + 1) (pre ++ [(n, p)]) (some n) p.e ?_ hbound2
            simp only [ScanOK]
            refine ⟨lt_of_le_of_lt (scanOK_nonneg hok) hlt,
              ⟨p, by simp, rfl⟩, ?_⟩
            intro q hq
            rcases List.mem_append.mp hq with hq | hq
            · have hqe : q.2.e ≤ maxE := scanOK_le hok q hq
              refine ⟨le_of_lt (lt_of_le_of_lt hqe hlt), ?_⟩
              intro he
              exact absurd (he ▸ lt_of_le_of_lt hqe hlt) (lt_irrefl _)
            · rcases List.mem_singleton.mp hq with rfl
              exact ⟨le_refl _, fun _ => le_refl n⟩
          · have hle2 : p.e ≤ maxE := not_lt.mp hlt
            have hstep : pionScanAux n (p :: rest) best maxE =
                pionScanAux (n + 1) rest best maxE := by
              simp [pionScanAux, hpion, hfin, hlt]
            rw [hstep, hcollect, hsplit]
            refine ih (n + 1) (pre ++ [(n, p)]) best maxE ?_ hbound2
            cases best with
            | none =>
                simp only [ScanOK] at hok ⊢
                refine ⟨hok.1, ?_⟩
                intro q hq
                rcases List.mem_append.mp hq with hq | hq
                · exact hok.2 q hq
                · rcases List.mem_singleton.mp hq with rfl
                  rw [← hok.1]
                  exact hle2
            | some i =>
                simp only [ScanOK] at hok ⊢
                obtain ⟨hpos, ⟨p0, hp0, hp0e⟩, hall⟩ := hok
                refine ⟨hpos, ⟨p0, List.mem_append_left _ hp0, hp0e⟩, ?_⟩
                intro q hq
                rcases List.mem_append.mp hq with hq | hq
                · exact hall q hq
                · rcases List.mem_singleton.mp hq with rfl
                  refine ⟨hle2, fun _ => ?_⟩
                  exact le_of_lt (hbound (i, p0) hp0)
        · have hcand : pionCand p = false := by
            simp [pionCand, hfin]
          have hcollect : collectAux pionCand n (p :: rest) =
              collectAux pionCand (n + 1) rest := by
            simp [collectAux, hcand]
          have hstep : pionScanAux n (p :: rest) best maxE =
              pionScanAux (n + 1) rest best maxE := by
            simp [pionScanAux, hpion, hfin]
          rw [hstep, hcollect]
          exact ih (n + 1) pre best maxE hok
            (fun q hq => lt_trans (hbound q hq) (Nat.lt_succ_self n))
      · have hcand : pionCand p = false := by
          simp [pionCand, hpion]
        have hcollect : collectAux pionCand n (p :: rest) =
            collectAux pionCand (n + 1) rest := by
          simp [collectAux, hcand]
        have hstep : pionScanAux n (p :: rest) best maxE =
            pionScanAux (n + 1) rest best maxE := by
          simp [pionScanAux, hpion]
        rw [hstep, hcollect]
        exact ih (n + 1) pre best maxE hok
          (fun q hq => lt_trans (hbound q hq) (Nat.lt_succ_self n))

lemma pionScan_ok (ev : List Particle) :
    ScanOK (finalPions ev) (pionScanAux 0 ev none 0) := by
  have h := pionScanAux_ok ev 0 [] none 0 (by simp [ScanOK]) (by simp)
  simpa [finalPions] using h

/-- `C5` (amended): in `hadronic50gev.cc` the selection scans the event for
final-state particles with `abs(id) ∈ {111, 211}` (note: this admits `-111`,
and the claimed set `{111, 211, -211}` does not); when some such candidate
has positive energy the scan selects the earliest candidate attaining the
maximum energy (ties are kept on the first index, not required to be
strict), and exports exactly one row for it; when every candidate has
non-positive energy (in particular when there are none) no row is
exported. -/
theorem C5_most_energetic_pion (iE : ℕ) (ev : List Particle) :
    ((∀ q ∈ finalPions ev, q.2.e ≤ 0) →
      mostEnergeticPion ev = none ∧ hadronic50Rows iE ev = []) ∧
    (∀ (i : ℕ) (p : Particle), (i, p) ∈ finalPions ev → 0 < p.e →
      ∃ (j : ℕ) (q : Particle), mostEnergeticPion ev = some j ∧
        (j, q) ∈ finalPions ev ∧ ev[j]? = some q ∧ 0 < q.e ∧
        hadronic50Rows iE ev = [pionRowFor iE q] ∧
        (∀ r ∈ finalPions ev, r.2.e ≤ q.e ∧ (r.2.e = q.e → j ≤ r.1))) ∧
    (∀ (i : ℕ) (p : Particle),
      (i, p) ∈ finalPions ev ↔ (ev[i]? = some p ∧ pionCand p = true)) := by
  have hok := pionScan_ok ev
  rcases hres : pionScanAux 0 ev none 0 with ⟨best, maxE⟩
  rw [hres] at hok
  have hmost : mostEnergeticPion ev = best := by
    unfold mostEnergeticPion
    rw [hres]
  refine ⟨?_, ?_, ?_⟩
  · intro hall
    cases best with
    | none =>
        refine ⟨hmost, ?_⟩
        simp [hadronic50Rows, hmost]
    | some j =>
        simp only [ScanOK] at hok
        obtain ⟨hpos, ⟨q, hq, hqe⟩, -⟩ := hok
        have hq0 : q.e ≤ 0 := hall (j, q) hq
        rw [hqe] at hq0
        exact absurd hpos (not_lt.mpr hq0)
  · intro i p hip hpe
    cases best with
    | none =>
        simp only [ScanOK] at hok
        have := hok.2 (i, p) hip
        exact absurd hpe (not_lt.mpr this)
    | some j =>
        simp only [ScanOK] at hok
        obtain ⟨hpos, ⟨q, hq, hqe⟩, hall⟩ := hok
        obtain ⟨-, hget, -⟩ :=
          (collectAux_mem pionCand ev 0 j q).mp (by simpa [finalPions] using hq)
        have hget0 : ev[j]? = some q := by simpa using hget
        refine ⟨j, q, hmost, hq, hget0, hqe ▸ hpos, ?_, ?_⟩
        · simp [hadronic50Rows, hmost, List.getD_eq_getElem?_getD, hget0]
        · intro r hr
          have := hall r hr
          rw [hqe]
          exact this
  · intro i p
    rw [finalPions, collectAux_mem pionCand ev 0 i p]
    simp

/-- Witness for `C5_most_energetic_pion` at the one-pion event `evC5W`. -/
theorem C5_most_energetic_pion_witness :
    ∃ (j : ℕ) (q : Particle), mostEnergeticPion evC5W = some j ∧
      (j, q) ∈ finalPions evC5W ∧ evC5W[j]? = some q ∧ 0 < q.e ∧
      hadronic50Rows 3 evC5W = [pionRowFor 3 q] ∧
      (∀ r ∈ finalPions evC5W, r.2.e ≤ q.e ∧ (r.2.e = q.e → j ≤ r.1)) :=
  (C5_most_energetic_pion 3 evC5W).2.1 0 pW (by decide) (by decide)

/-- `C5` counterexample: in `evTie` two final-state pions tie at the maximal
energy, so no particle has strictly maximal energy among the candidates, yet
the scan still selects one (the first) and exports a row; and in `evNeg` the
scan selects a particle with species id `-111`, which is outside the claimed
species set `{111, 211, -211}`. -/
theorem C5_strict_max_counterexample :
    (mostEnergeticPion evTie = some 0 ∧
      (hadronic50Rows 0 evTie).length = 1 ∧
      (evTie.getD 0 default).e = (evTie.getD 1 default).e ∧
      ¬∃ q ∈ finalPions evTie,
        ∀ r ∈ finalPions evTie, r.1 ≠ q.1 → r.2.e < q.2.e) ∧
    (mostEnergeticPion evNeg = some 0 ∧ (evNeg.getD 0 default).id = -111 ∧
      (hadronic50Rows 0 evNeg).length = 1) := by
  decide

lemma csvRowsAux_length (iE : ℕ) (ev : List Particle) :
    ∀ (l : List ℕ) (k : ℕ), (csvRowsAux iE ev k l).length = l.length := by
  intro l
  induction l with
  | nil => intro k; rfl
  | cons i0 rest ih => intro k; simp [csvRowsAux, ih]

lemma csvRowsAux_getD (iE : ℕ) (ev : List Particle) :
    ∀ (l : List ℕ) (k j : ℕ), j < l.length →
      (csvRowsAux iE ev k l).getD j default =
        csvRowFor (toString iE ++ "_" ++ toString (k + j + 1)) (l.getD j 0)
          (ev.getD (l.getD j 0) default) := by
  intro l
  induction l with
  | nil => intro k j hj; simp at hj
  | cons i0 rest ih =>
    intro k j hj
    cases j with
    | zero => simp [csvRowsAux]
    | succ j =>
        have hj2 : j < rest.length := by simpa using hj
        have harith : k + 1 + j + 1 = k + (j + 1) + 1 := by omega
        simp only [csvRowsAux, List.getD_cons_succ]
        rw [ih (k + 1) j hj2, harith]

lemma csvRowsAux_map_e (iE : ℕ) (ev : List Particle) :
    ∀ (l : List ℕ) (k : ℕ),
      (csvRowsAux iE ev k l).map CsvRow.e =
        l.map (fun i => (ev.getD i default).e) := by
  intro l
  induction l with
  | nil => intro k; rfl
  | cons i0 rest ih => intro k; simp [csvRowsAux, csvRowFor, ih]

/-- `C6`: `first_emitted.cc` emits exactly one `first_hadron_data.csv` row
per simultaneity-group member — with the event tag suffixed `"_k"` when the
group has more than one member and bare otherwise — and zero rows for an
event with no primary-hadron candidates. -/
theorem C6_rows_per_event (iE : ℕ) (ev : List Particle) :
    (primaryHadrons ev = [] → csvRowsForEvent iE ev = []) ∧
    (primaryHadrons ev ≠ [] →
      (csvRowsForEvent iE ev).length = (simultaneousFirstHadrons ev).length ∧
      (1 < (simultaneousFirstHadrons ev).length →
        ∀ j, j < (simultaneousFirstHadrons ev).length →
          ((csvRowsForEvent iE ev).getD j default).eventTag =
            toString iE ++ "_" ++ toString (j + 1)) ∧
      ((simultaneousFirstHadrons ev).length = 1 →
        ∀ r ∈ csvRowsForEvent iE ev, r.eventTag = toString iE)) := by
  constructor
  · intro h
    simp [csvRowsForEvent, h]
  · intro h
    have hsim := sims_ne_nil h
    by_cases hgt : 1 < (simultaneousFirstHadrons ev).length
    · have hrows : csvRowsForEvent iE ev =
          csvRowsAux iE ev 0 (simultaneousFirstHadrons ev) := by
        simp [csvRowsForEvent, h, hgt]
      refine ⟨?_, ?_, ?_⟩
      · rw [hrows, csvRowsAux_length]
      · intro _ j hj
        rw [hrows, csvRowsAux_getD iE ev (simultaneousFirstHadrons ev) 0 j hj]
        have harith : 0 + j + 1 = j + 1 := by omega
        rw [harith]
        rfl
      · intro hlen
        exact absurd hlen (by omega)
    · cases hs : simultaneousFirstHadrons ev with
      | nil => exact absurd hs hsim
      | cons i0 rest =>
          have hrest : rest = [] := by
            rw [hs] at hgt
            simp only [List.length_cons] at hgt
            exact List.length_eq_zero.mp (by omega)
          subst hrest
          have hrows : csvRowsForEvent iE ev =
              [csvRowFor (toString iE) i0 (ev.getD i0 default)] := by
            simp [csvRowsForEvent, h, hs]
          refine ⟨?_, ?_, ?_⟩
          · rw [hrows]
            rfl
          · intro hcon
            exact absurd hcon (by simp)
          · intro _ r hr
            rw [hrows] at hr
            rcases List.mem_singleton.mp hr with rfl
            rfl

lemma sims_evSingle : simultaneousFirstHadrons evSingle = [0] := by
  have hs : sortedHadronTimes evSingle =
      [{ time := 0, idx := 0, status := 81 }] := by decide
  simp only [simultaneousFirstHadrons, hs]
  rw [List.takeWhile_cons_of_pos
    (by simp only [decide_eq_true_eq]; norm_num [timeTolerance])]
  simp

lemma sims_evMulti : simultaneousFirstHadrons evMulti = [0, 1] := by
  have hs : sortedHadronTimes evMulti =
      [{ time := 0, idx := 0, status := 81 },
       { time := 0, idx := 1, status := 82 }] := by decide
  simp only [simultaneousFirstHadrons, hs]
  rw [List.takeWhile_cons_of_pos
      (by simp only [decide_eq_true_eq]; norm_num [timeTolerance]),
    List.takeWhile_cons_of_pos
      (by simp only [decide_eq_true_eq]; norm_num [timeTolerance])]
  simp

/-- Witness for `C6_rows_per_event` at the two-member simultaneity group of
`evMulti`. -/
theorem C6_rows_per_event_witness :
    (csvRowsForEvent 7 evMulti).length =
      (simultaneousFirstHadrons evMulti).length ∧
    ((csvRowsForEvent 7 evMulti).getD 0 default).eventTag = "7_1" := by
  obtain ⟨-, h⟩ := C6_rows_per_event 7 evMulti
  obtain ⟨hlen, hsuf, -⟩ := h (by decide)
  refine ⟨hlen, ?_⟩
  have htag := hsuf (by simp [sims_evMulti]) 0 (by simp [sims_evMulti])
  rw [htag]
  decide

/-- `C7` (amended): for every simultaneity-group member both resolver
branches compute the momentum fraction as the member's energy divided by the
fixed assumed string energy 10 = 2 × 5 GeV, and report it on the console;
the member's CSV row carries the energy itself, from which that fraction is
derived (the fraction is not one of the CSV columns). -/
theorem C7_momentum_fraction (iE : ℕ) (ev : List Particle)
    (h : primaryHadrons ev ≠ []) :
    totalStringEnergy = 2 * seedEnergy ∧
    consoleZFractions ev = (simultaneousFirstHadrons ev).map
      (fun i => (ev.getD i default).e / (2 * seedEnergy)) ∧
    (csvRowsForEvent iE ev).map CsvRow.e =
      (simultaneousFirstHadrons ev).map
        (fun i => (ev.getD i default).e) := by
  have hsim := sims_ne_nil h
  have h10 : (2 : ℚ) * seedEnergy = 10 := by norm_num [seedEnergy]
  refine ⟨by norm_num [totalStringEnergy, seedEnergy], ?_, ?_⟩
  · rw [h10]
    by_cases hgt : 1 < (simultaneousFirstHadrons ev).length
    · simp only [consoleZFractions, hgt, if_true]
      simp [totalStringEnergy]
    · cases hs : simultaneousFirstHadrons ev with
      | nil => exact absurd hs hsim
      | cons i0 rest =>
          have hrest : rest = [] := by
            rw [hs] at hgt
            simp only [List.length_cons] at hgt
            exact List.length_eq_zero.mp (by omega)
          subst hrest
          simp [consoleZFractions, hs]
  · by_cases hgt : 1 < (simultaneousFirstHadrons ev).length
    · have hrows : csvRowsForEvent iE ev =
          csvRowsAux iE ev 0 (simultaneousFirstHadrons ev) := by
        simp [csvRowsForEvent, h, hgt]
      rw [hrows, csvRowsAux_map_e]
    · cases hs : simultaneousFirstHadrons ev with
      | nil => exact absurd hs hsim
      | cons i0 rest =>
          have hrest : rest = [] := by
            rw [hs] at hgt
            simp only [List.length_cons] at hgt
            exact List.length_eq_zero.mp (by omega)
          subst hrest
          have hrows : csvRowsForEvent iE ev =
              [csvRowFor (toString iE) i0 (ev.getD i0 default)] := by
            simp [csvRowsForEvent, h, hs]
          rw [hrows]
          rfl

/-- Witness for `C7_momentum_fraction` at `evMulti`. -/
theorem C7_momentum_fraction_witness :
    totalStringEnergy = 2 * seedEnergy ∧
    consoleZFractions evMulti = (simultaneousFirstHadrons evMulti).map
      (fun i => (evMulti.getD i default).e / (2 * seedEnergy)) ∧
    (csvRowsForEvent 7 evMulti).map CsvRow.e =
      (simultaneousFirstHadrons evMulti).map
        (fun i => (evMulti.getD i default).e) :=
  C7_momentum_fraction 7 evMulti (by decide)

/-- `C7` counterexample: for the single-member group of `evSingle` the
momentum fraction reported on the console is `3/10`, but the CSV row emitted
for that member contains no field equal to `3/10` — the fraction is not
carried by the exported row. -/
theorem C7_fraction_not_in_csv_counterexample :
    consoleZFractions evSingle = [3 / 10] ∧
    csvRowsForEvent 0 evSingle =
      [csvRowFor (toString 0) 0 (evSingle.getD 0 default)] ∧
    (3 : ℚ) / 10 ∉
      rowRats (csvRowFor (toString 0) 0 (evSingle.getD 0 default)) := by
  have hph : primaryHadrons evSingle ≠ [] := by decide
  have he : (evSingle.getD 0 default).e = 3 := by decide
  refine ⟨?_, ?_, ?_⟩
  · simp only [consoleZFractions, sims_evSingle, List.length_cons,
      List.length_nil]
    rw [if_neg (by omega), he]
  · simp [csvRowsForEvent, hph, sims_evSingle]
  · norm_num [rowRats, csvRowFor, evSingle, sampleP]

lemma runLoop_foldl {α : Type} (rowsFor : ℕ → List Particle → List α)
    (gen : ℕ → Option (List Particle)) :
    ∀ (l : List ℕ) (acc : List α × ℕ),
      l.foldl (fun acc i =>
        match gen i with
        | none => (acc.1, acc.2 + 1)
        | some ev => (acc.1 ++ rowsFor i ev, acc.2)) acc =
      (acc.1 ++ (l.map (fun i =>
          match gen i with
          | none => []
          | some ev => rowsFor i ev)).flatten,
        acc.2 + (l.filter (fun i => (gen i).isNone)).length) := by
  intro l
  induction l with
  | nil => intro acc; simp
  | cons i rest ih =>
    intro acc
    rw [List.foldl_cons]
    cases hg : gen i with
    | none =>
        rw [ih]
        simp only [hg, List.map_cons, List.flatten, List.filter_cons,
          Option.isNone_none, eq_self_iff_true, if_true, List.length_cons,
          Prod.mk.injEq, List.nil_append]
        exact ⟨trivial, by omega⟩
    | some ev2 =>
        rw [ih]
        simp only [hg, List.map_cons, List.flatten, List.filter_cons,
          Option.isNone_some, Prod.mk.injEq]
        constructor
        · simp
        · simp

/-- `C8`: the event loop always completes its fixed iteration count: its
output is the concatenation over all `nEvent` iterations of the per-event
rows, a failed generation contributing no rows and one logged notice, and
the failure count is exactly the number of failed iterations — no failure
terminates the run or affects any other iteration. -/
theorem C8_generation_failure_policy {α : Type}
    (rowsFor : ℕ → List Particle → List α)
    (gen : ℕ → Option (List Particle)) (nEvent : ℕ) :
    runLoop rowsFor gen nEvent =
      (((List.range nEvent).map (fun i =>
          match gen i with
          | none => []
          | some ev => rowsFor i ev)).flatten,
        ((List.range nEvent).filter (fun i => (gen i).isNone)).length) := by
  unfold runLoop
  rw [runLoop_foldl]
  simp

/-- `C9`: every `events_output_100gev.csv` row writes the absolute value of
the selected pion's `pz` (hence a non-negative value) in the `Particle_pz`
column, while `px`, `py`, `pT` and `E` are written unmodified. -/
theorem C9_pz_absolute_value (iE : ℕ) (ev : List Particle) (r : PionRow)
    (hr : r ∈ hadronic50Rows iE ev) :
    ∃ i, mostEnergeticPion ev = some i ∧
      r = pionRowFor iE (ev.getD i default) ∧
      r.pzCol = |(ev.getD i default).pz| ∧ 0 ≤ r.pzCol ∧
      r.pxCol = (ev.getD i default).px ∧
      r.pyCol = (ev.getD i default).py ∧
      r.pTCol = (ev.getD i default).pT ∧
      r.eCol = (ev.getD i default).e := by
  unfold hadronic50Rows at hr
  cases hm : mostEnergeticPion ev with
  | none =>
      rw [hm] at hr
      simp at hr
  | some i =>
      rw [hm] at hr
      rcases List.mem_singleton.mp hr with rfl
      exact ⟨i, rfl, rfl, rfl, abs_nonneg _, rfl, rfl, rfl, rfl⟩

/-- Witness for `C9_pz_absolute_value` at the one-pion event `evC5W`
(whose pion has `pz = -2`). -/
theorem C9_pz_absolute_value_witness :
    ∃ i, mostEnergeticPion evC5W = some i ∧
      pionRowFor 0 (evC5W.getD 0 default) =
        pionRowFor 0 (evC5W.getD i default) ∧
      (pionRowFor 0 (evC5W.getD 0 default)).pzCol =
        |(evC5W.getD i default).pz| ∧
      0 ≤ (pionRowFor 0 (evC5W.getD 0 default)).pzCol ∧
      (pionRowFor 0 (evC5W.getD 0 default)).pxCol =
        (evC5W.getD i default).px ∧
      (pionRowFor 0 (evC5W.getD 0 default)).pyCol =
        (evC5W.getD i default).py ∧
      (pionRowFor 0 (evC5W.getD 0 default)).pTCol =
        (evC5W.getD i default).pT ∧
      (pionRowFor 0 (evC5W.getD 0 default)).eCol =
        (evC5W.getD i default).e :=
  C9_pz_absolute_value 0 evC5W (pionRowFor 0 (evC5W.getD 0 default))
    (by decide)

/-- Witness for `C1_primary_hadron_classifier` at a concrete hadron record
with status 81. -/
theorem C1_primary_hadron_classifier_witness :
    isPrimaryHadron (sampleP 211 81 3 true none) = true ↔
      ((sampleP 211 81 3 true none).isHadron = true ∧
        81 ≤ |(sampleP 211 81 3 true none).status| ∧
        |(sampleP 211 81 3 true none).status| ≤ 89) :=
  C1_primary_hadron_classifier (sampleP 211 81 3 true none)

end QmlHadron
